import Mathlib

/-!
# Verification of the Result Aggregation & Trend Analysis Engine

Shallow embedding of `src/scripts/generate_report.py` (repository
`avifenesh/ratelimit_bench`): the filename/identifier parser
(`parse_filename`), the throughput extractor (`get_throughput_from_json`),
the configuration grouping and median-representative selection of
`process_single_directory` / `extract_median_results`, and the trend
computation of `calculate_performance_trends`.

Strings are modelled as `List Char` (ASCII behaviour of the Python string
primitives), numbers as `ℚ` (exact counterpart of the float arithmetic),
JSON documents as an inductive `Json` type, and the one uncaught Python
exception class relevant here (`AttributeError`) as an `Except` error.
-/

namespace GenerateReport

/-! ## Python string primitives -/

/-- Python `str.replace(old, new)`: leftmost non-overlapping occurrences of
`old` are replaced by `new`; scanning resumes after the replaced text (so a
replacement can create a new occurrence that is not itself replaced).
Fuel-structured so that the kernel can evaluate it; the fuel `s.length`
always suffices because each step consumes at least one character. -/
def pyReplaceAux (old new : List Char) : Nat → List Char → List Char
  | 0, s => s
  | _ + 1, [] => []
  | fuel + 1, c :: rest =>
    if old ≠ [] ∧ old.isPrefixOf (c :: rest) then
      new ++ pyReplaceAux old new fuel ((c :: rest).drop old.length)
    else
      c :: pyReplaceAux old new fuel rest

def pyReplace (old new s : List Char) : List Char :=
  pyReplaceAux old new s.length s

/-- Python `os.path.basename`: the part after the last `/`. -/
def pyBasename (s : List Char) : List Char :=
  (s.splitOn '/').getLastD s

/-- Python `str.strip(chars)`: remove leading and trailing characters that
belong to `cs`. -/
def pyStripChars (cs : List Char) (s : List Char) : List Char :=
  ((s.dropWhile (· ∈ cs)).reverse.dropWhile (· ∈ cs)).reverse

/-- Python `re.sub(r'\d+$', '', s)`: remove a maximal trailing digit run. -/
def dropTrailingDigits (s : List Char) : List Char :=
  (s.reverse.dropWhile Char.isDigit).reverse

/-- Python `needle in haystack` (substring containment). -/
def pyContains (needle : List Char) : List Char → Bool
  | [] => needle.isEmpty
  | c :: rest => needle.isPrefixOf (c :: rest) || pyContains needle rest

/-- Numeric value of a digit run (the regex groups are plain digit runs, so
this is Python `int` on the captured group). -/
def digitsVal (ds : List Char) : Nat :=
  ds.foldl (fun n c => n * 10 + (c.toNat - '0'.toNat)) 0

/-- Python `re.search(r'(\d+)<ch>', s)`: the leftmost match of one-or-more
digits immediately followed by the character `ch`.  Returns the whole
matched text (`group(0)`) together with the numeric value of the digits
(`int(group(1))`).  At a given start position the greedy `\d+` takes the
maximal digit run; backtracking inside the run can never succeed because
every shorter run is followed by a digit, not by `ch`, so the search simply
advances one position on failure — exactly this recursion. -/
def reNumThen (ch : Char) : List Char → Option (List Char × Nat)
  | [] => none
  | c :: rest =>
    if c.isDigit then
      let run := (c :: rest).takeWhile Char.isDigit
      match (c :: rest).dropWhile Char.isDigit with
      | c' :: _ =>
        if c' = ch then some (run ++ [ch], digitsVal run) else reNumThen ch rest
      | [] => reNumThen ch rest
    else
      reNumThen ch rest

/-- Python `re.search(r'(light|heavy)', s)`: leftmost occurrence of either
literal word, trying `light` first at each position. -/
def searchLightHeavy : List Char → Option (List Char)
  | [] => none
  | c :: rest =>
    if ("light".toList).isPrefixOf (c :: rest) then some ("light".toList)
    else if ("heavy".toList).isPrefixOf (c :: rest) then some ("heavy".toList)
    else searchLightHeavy rest

/-- Python `re.sub(r'(_|-|:)cluster($|_)', r'\2', s)`: each leftmost
non-overlapping occurrence of a delimiter, the literal `cluster` and either
the end of the string or `_`, replaced by the captured `$`-or-`_` part.
Fuel-structured like `pyReplaceAux`. -/
def subClusterAux : Nat → List Char → List Char
  | 0, s => s
  | _ + 1, [] => []
  | fuel + 1, c :: rest =>
    if (c = '_' ∨ c = '-' ∨ c = ':') ∧ ("cluster".toList).isPrefixOf rest then
      match rest.drop 7 with
      | [] => []
      | '_' :: tail => '_' :: subClusterAux fuel tail
      | _ => c :: subClusterAux fuel rest
    else
      c :: subClusterAux fuel rest

def subCluster (s : List Char) : List Char :=
  subClusterAux s.length s

/-- Digit run with Python's underscore rule (`int` accepts single
underscores strictly between digits), accumulating the value. -/
def pyDigitsCore (acc : Nat) : List Char → Option Nat
  | [] => some acc
  | '_' :: c :: rest =>
    if c.isDigit then pyDigitsCore (acc * 10 + (c.toNat - '0'.toNat)) rest else none
  | '_' :: [] => none
  | c :: rest =>
    if c.isDigit then pyDigitsCore (acc * 10 + (c.toNat - '0'.toNat)) rest else none

def pyDigits : List Char → Option Nat
  | [] => none
  | c :: rest =>
    if c.isDigit then pyDigitsCore (c.toNat - '0'.toNat) rest else none

/-- Python `int(s)` on a decimal string: optional surrounding whitespace,
optional sign, digits with single underscores between them; `none` models a
raised `ValueError` (always caught at the call sites modelled here). -/
def pyInt (s : List Char) : Option Int :=
  let t := ((s.dropWhile Char.isWhitespace).reverse.dropWhile Char.isWhitespace).reverse
  match t with
  | '+' :: ds => (pyDigits ds).map (fun n => (n : Int))
  | '-' :: ds => (pyDigits ds).map (fun n => -(n : Int))
  | ds => (pyDigits ds).map (fun n => (n : Int))

/-! ## The identifier parser (`parse_filename`) -/

inductive Mode where
  | standalone
  | cluster
deriving DecidableEq, Repr

structure ParsedName where
  implementation : String
  mode : Mode
  reqType : String
  concurrency : Int
  durationSeconds : Int
  clientName : String
deriving DecidableEq, Repr

/-- `base = os.path.basename(filename).replace('.json', '')`. -/
def baseOf (s : String) : List Char :=
  pyReplace (".json".toList) [] (pyBasename s.toList)

/-- The fallback loop re-scanning `base.split('_')` for a part with a
trailing `ch` whose remainder parses as an `int`; a part whose remainder
fails to parse is skipped (`except ValueError: pass`), and the loop breaks
on the first success even when the parsed value is `0`. -/
def fallbackSuffix (ch : Char) : List (List Char) → Option Int
  | [] => none
  | p :: rest =>
    if p.getLast? = some ch then
      match pyInt p.dropLast with
      | some n => some n
      | none => fallbackSuffix ch rest
    else
      fallbackSuffix ch rest

/-- Mode detection:
`"cluster" in base.lower() or ":cluster" in base or "-cluster" in base`. -/
def modeOf (b : List Char) : Mode :=
  if pyContains ("cluster".toList) (b.map Char.toLower)
      || pyContains (":cluster".toList) b
      || pyContains ("-cluster".toList) b then
    Mode.cluster
  else
    Mode.standalone

/-- Removal of the regex-matched concurrency, duration and workload-type
texts from `base` (each regex ran on `base`; each removal applies to the
running residual and removes every occurrence of the matched text). -/
def stripRecognized (b : List Char) : List Char :=
  let t1 := match reNumThen 'c' b with
    | some g => pyReplace g.1 [] b
    | none => b
  let t2 := match reNumThen 's' b with
    | some g => pyReplace g.1 [] t1
    | none => t1
  match searchLightHeavy b with
  | some w => pyReplace w [] t2
  | none => t2

/-- The derived implementation name before the empty-name defaults:
residual after stripping recognized tokens, cluster-mode indicators, the
`run` keyword and trailing run numbers, with separators cleaned up and the
non-empty `_`-segments joined by `-`. -/
def implNameOf (b : List Char) : List Char :=
  let t4 := subCluster (stripRecognized b)
  let t5 := pyReplace ("run".toList) [] t4
  let t6 := dropTrailingDigits t5
  let t7 := pyStripChars ['_', ':'] (pyReplace ("__".toList) ("_".toList) t6)
  List.intercalate ("-".toList) ((t7.splitOn '_').filter (fun p => !p.isEmpty))

/-- `client_name.replace("-cluster", "").replace(":cluster", "")`. -/
def clusterStripName (impl : List Char) : List Char :=
  pyReplace (":cluster".toList) [] (pyReplace ("-cluster".toList) [] impl)

def concurrencyOf (b : List Char) : Int :=
  let c0 : Int := match reNumThen 'c' b with
    | some g => (g.2 : Int)
    | none => 0
  if c0 = 0 then (fallbackSuffix 'c' (b.splitOn '_')).getD 0 else c0

def durationOf (b : List Char) : Int :=
  let d0 : Int := match reNumThen 's' b with
    | some g => (g.2 : Int)
    | none => 0
  if d0 = 0 then (fallbackSuffix 's' (b.splitOn '_')).getD 0 else d0

/-- The workload type: the regex can only yield `light`/`heavy`, so the
final `if req_type == "unknown"` re-check of the raw `_`-parts fires
exactly when the regex found nothing. -/
def reqTypeOf (b : List Char) : String :=
  match searchLightHeavy b with
  | some w => String.mk w
  | none =>
    if ("light".toList) ∈ b.splitOn '_' then "light"
    else if ("heavy".toList) ∈ b.splitOn '_' then "heavy"
    else "unknown"

def implFinal (b : List Char) : String :=
  if implNameOf b = [] then "unknown_impl" else String.mk (implNameOf b)

/-- The grouping-relevant client name: the implementation name with the
cluster suffixes textually removed when the mode is cluster, falling back
to the unstripped implementation name when the removal empties it, and to
`unknown_impl` when the implementation name itself is empty. -/
def clientFinal (b : List Char) : String :=
  if implNameOf b = [] then "unknown_impl"
  else
    let cr := if modeOf b = Mode.cluster then clusterStripName (implNameOf b)
              else implNameOf b
    if cr = [] then String.mk (implNameOf b) else String.mk cr

/-- `parse_filename` on the pre-computed `base` string. -/
def parseBase (b : List Char) : ParsedName where
  implementation := implFinal b
  mode := modeOf b
  reqType := reqTypeOf b
  concurrency := concurrencyOf b
  durationSeconds := durationOf b
  clientName := clientFinal b

/-- `parse_filename(filename)`: total — every input yields a `ParsedName`,
mirroring the contract that the parser never raises. -/
def parseFilename (s : String) : ParsedName :=
  parseBase (baseOf s)

/-! ## JSON documents and the metric extractor (`get_throughput_from_json`) -/

/-- Parsed JSON values (`json.load` output); numbers as `ℚ`. -/
inductive Json where
  | null
  | bool (b : Bool)
  | num (q : ℚ)
  | str (s : String)
  | arr (xs : List Json)
  | obj (kvs : List (String × Json))

/-- Python `dict.get(k)` on the association list of an object (keys of a
parsed JSON object are unique). -/
def dictGet (kvs : List (String × Json)) (k : String) : Option Json :=
  match kvs.find? (fun kv => kv.1 == k) with
  | some kv => some kv.2
  | none => none

/-- The one exception class not caught by `get_throughput_from_json`'s
`except (json.JSONDecodeError, IOError, ValueError, TypeError)` handler:
calling `.get` on a non-dict raises `AttributeError`. -/
inductive PyErr where
  | attributeError
deriving DecidableEq, Repr

/-- `x.get(...)` requires `x` to be a dict; otherwise `AttributeError`. -/
def asDict : Json → Except PyErr (List (String × Json))
  | .obj kvs => .ok kvs
  | _ => .error .attributeError

/-- `float(v) if v is not None and isinstance(v, (int, float)) else 0`
(in Python `bool` is an `int` subclass, so `True ↦ 1.0`, `False ↦ 0.0`). -/
def coerceNum : Json → ℚ
  | .num q => q
  | .bool b => if b then 1 else 0
  | _ => 0

/-- `get_throughput_from_json` on an already-parsed document:
`result_json.get('throughput', {}).get('average',
 result_json.get('requests', {}).get('average', 0))` followed by the
numeric coercion.  Evaluation order as in Python: the receiver's `.get`
attribute is looked up (raising `AttributeError` on a non-dict) before the
default argument — the `requests` chain — is evaluated.  File-level
`JSONDecodeError`/`IOError` are outside this model; `ValueError`/`TypeError`
cannot escape the coercion guard.  `AttributeError` is not caught by the
function and escapes as `Except.error`. -/
def get_throughput_from_json (j : Json) : Except PyErr ℚ := do
  let top ← asDict j
  let thrDict ← asDict ((dictGet top "throughput").getD (.obj []))
  let reqDict ← asDict ((dictGet top "requests").getD (.obj []))
  let fallback := (dictGet reqDict "average").getD (.num 0)
  pure (coerceNum ((dictGet thrDict "average").getD fallback))

/-- `result_json.get("rateLimitHits", 0)` wrapped in `try ... except
Exception: rate_limit_hits = 0` — any failure (including a non-dict
document) yields the Python int `0`. -/
def extractRateLimitHits (j : Json) : Json :=
  match j with
  | .obj kvs => (dictGet kvs "rateLimitHits").getD (.num 0)
  | _ => .num 0

/-- Python `v == 0` on the raw JSON value stored as `rate_limit_hits`
(`0 == 0`, `0.0 == 0` and `False == 0` are true; anything else, including
`None` and `"0"`, is false). -/
def rlhIsZero : Json → Bool
  | .num q => q == 0
  | .bool b => !b
  | _ => false

/-! ## Grouping and the representative selector -/

/-- One entry of a `file_groups[config_key]` list: the fields the grouping
loops store per file (`extract_median_results` additionally stores the raw
`rate_limit_hits` value). -/
structure FileEntry where
  filepath : String
  throughput : ℚ
  rateLimitHits : Json

/-- The sort relation of `files.sort(key=lambda x: x["throughput"])`. -/
def repLE (a b : FileEntry) : Prop :=
  a.throughput ≤ b.throughput

instance : DecidableRel repLE := fun a b =>
  inferInstanceAs (Decidable (a.throughput ≤ b.throughput))

instance : IsTotal FileEntry repLE := ⟨fun a b => le_total a.throughput b.throughput⟩

instance : IsTrans FileEntry repLE := ⟨fun _ _ _ h h' => le_trans h h'⟩

/-- Python's stable ascending sort by throughput.  `List.insertionSort`
inserts each earlier element in front of the first later element that is
`≥` it, hence ties keep input order — the same stable result `list.sort`
produces. -/
def sortByThroughput (files : List FileEntry) : List FileEntry :=
  files.insertionSort repLE

/-- `files.sort(key=...); files[len(files) // 2]` — the median-by-throughput
representative (`none` only for an empty group, which grouping never
creates). -/
def selectRep (files : List FileEntry) : Option FileEntry :=
  (sortByThroughput files)[files.length / 2]?

/-- `all(file_info["rate_limit_hits"] == 0 for file_info in files)`. -/
def isFailedConfiguration (g : List FileEntry) : Bool :=
  g.all (fun e => rlhIsZero e.rateLimitHits)

/-- Whether `extract_median_results` emits (copies a median file for) a
group: it skips groups where all runs have zero `rateLimitHits`, and then
skips groups with fewer than 2 files. -/
def emitsMedian (g : List FileEntry) : Bool :=
  !isFailedConfiguration g && decide (2 ≤ g.length)

/-- Whether `process_single_directory` produces a data row for a group:
every non-empty group does (`if not files: continue`). -/
def singleDirEmits (g : List FileEntry) : Bool :=
  !g.isEmpty

/-- `config_key = (client_name, mode, req_type, concurrency, file_duration)`. -/
structure ConfigKey where
  client : String
  mode : Mode
  reqType : String
  concurrency : Int
  duration : Int
deriving DecidableEq

/-- The incomplete-identifier filter:
`if concurrency == 0 or req_type == "unknown": continue`. -/
def keyOfParsed (p : ParsedName) : Option ConfigKey :=
  if p.concurrency = 0 ∨ p.reqType = "unknown" then none
  else some ⟨p.clientName, p.mode, p.reqType, p.concurrency, p.durationSeconds⟩

/-- One raw result file of a single results directory. -/
structure RawFile where
  filename : String
  json : Json

/-- The per-file admission of `process_single_directory`'s grouping loop:
parse the filename, drop incomplete identifiers, extract the throughput
(an escaping `AttributeError` is caught by the surrounding
`except Exception: continue`, dropping the file), and drop files with
`throughput <= 0`. -/
def includeEntry (f : RawFile) : Option (ConfigKey × FileEntry) :=
  match keyOfParsed (parseFilename f.filename) with
  | none => none
  | some k =>
    match get_throughput_from_json f.json with
    | .error _ => none
    | .ok t =>
      if 0 < t then some (k, ⟨f.filename, t, extractRateLimitHits f.json⟩)
      else none

/-- `file_groups[k]` built by `process_single_directory`: admitted files in
input order. -/
def groupRuns (files : List RawFile) (k : ConfigKey) : List FileEntry :=
  files.filterMap (fun f =>
    match includeEntry f with
    | some kv => if kv.1 = k then some kv.2 else none
    | none => none)

/-! ## Trend metrics (`calculate_performance_trends`)

The per-configuration throughput sequence (already sorted by run datetime
and filtered to non-NaN values) is modelled as a `List ℚ`; the code
computes direction and stability only when the list has at least 2
elements, so the definitions below are only ever read under that guard. -/

def meanQ (ys : List ℚ) : ℚ :=
  ys.sum / ys.length

/-- `np.std(ys)^2` — population variance (`ddof = 0`). -/
def popVarQ (ys : List ℚ) : ℚ :=
  ((ys.map (fun y => (y - meanQ ys) ^ 2)).sum) / ys.length

/-- The ordinary-least-squares slope `np.polyfit(range(n), ys, 1)[0]` of
throughput against point index, in exact arithmetic. -/
def slopeQ (ys : List ℚ) : ℚ :=
  let n : ℚ := ys.length
  let xs : List ℚ := (List.range ys.length).map (fun i => (i : ℚ))
  let sx := xs.sum
  let sy := ys.sum
  let sxx := (xs.map (fun x => x ^ 2)).sum
  let sxy := ((xs.zip ys).map (fun p => p.1 * p.2)).sum
  (n * sxy - sx * sy) / (n * sxx - sx ^ 2)

/-- `throughput_change`: `(last - first) / first * 100` guarded by
`first_throughput > 0`, else `0`. -/
def throughputChange (ys : List ℚ) : ℚ :=
  let pFirst := ys.headD 0
  let pLast := ys.getLastD 0
  if 0 < pFirst then (pLast - pFirst) / pFirst * 100 else 0

inductive TrendDirection where
  | improving
  | declining
  | stable
deriving DecidableEq, Repr

/-- `variableCV` renders the code's string `"variable"`. -/
inductive TrendStability where
  | stable
  | variableCV
  | unstable
  | insufficientData
deriving DecidableEq, Repr

/-- Trend direction: slope sign for ≥ 3 points, else the ±5 %
`throughput_change` rule. -/
def trendDirection (ys : List ℚ) : TrendDirection :=
  if 3 ≤ ys.length then
    if 0 < slopeQ ys then .improving
    else if slopeQ ys < 0 then .declining
    else .stable
  else
    if 5 < throughputChange ys then .improving
    else if throughputChange ys < -5 then .declining
    else .stable

/-- Stability for ≥ 3 points: `cv = np.std(ys) / np.mean(ys) * 100` when the
mean is positive (else `cv = 0`, hence `stable`), bucketed at `cv < 10` and
`cv < 25`.  For a positive mean `m` and variance `v ≥ 0`,
`cv < t ↔ 10000·v < t²·m²` (squaring eliminates the square root), so the
buckets are transcribed exactly by the rational comparisons below; the
equivalence with the `cv` formula is proved in the trend theorem. -/
def trendStability (ys : List ℚ) : TrendStability :=
  if 3 ≤ ys.length then
    if 0 < meanQ ys then
      if 10000 * popVarQ ys < 100 * (meanQ ys) ^ 2 then .stable
      else if 10000 * popVarQ ys < 625 * (meanQ ys) ^ 2 then .variableCV
      else .unstable
    else .stable
  else .insufficientData

/-! ## Helper lemmas -/

theorem pyContains_iff (needle : List Char) :
    ∀ h : List Char,
      pyContains needle h = true ↔ ∃ p s, h = p ++ needle ++ s := by
  intro h
  induction h with
  | nil =>
    simp only [pyContains, List.isEmpty_iff]
    constructor
    · intro hn
      exact ⟨[], [], by simp [hn]⟩
    · rintro ⟨p, s, hps⟩
      rcases List.append_eq_nil.mp (List.append_eq_nil.mp hps.symm).1 with ⟨_, h2⟩
      exact h2
  | cons c rest ih =>
    simp only [pyContains, Bool.or_eq_true, ih, List.isPrefixOf_iff_prefix]
    constructor
    · rintro (⟨t, ht⟩ | ⟨p, s, hps⟩)
      · exact ⟨[], t, by simp [ht]⟩
      · exact ⟨c :: p, s, by simp [hps]⟩
    · rintro ⟨p, s, hps⟩
      cases p with
      | nil =>
        exact Or.inl ⟨s, by simpa using hps.symm⟩
      | cons d p' =>
        simp only [List.cons_append, List.cons.injEq] at hps
        exact Or.inr ⟨p', s, hps.2⟩

theorem pyContains_drop_head (d : Char) (w h : List Char)
    (hc : pyContains (d :: w) h = true) : pyContains w h = true := by
  rcases (pyContains_iff (d :: w) h).mp hc with ⟨p, s, hps⟩
  exact (pyContains_iff w h).mpr ⟨p ++ [d], s, by simpa using hps⟩

theorem pyContains_map (f : Char → Char) (w h : List Char)
    (hc : pyContains w h = true) :
    pyContains (w.map f) (h.map f) = true := by
  rcases (pyContains_iff w h).mp hc with ⟨p, s, hps⟩
  exact (pyContains_iff (w.map f) (h.map f)).mpr
    ⟨p.map f, s.map f, by simp [hps]⟩

/-- `":cluster" in b` and `"-cluster" in b` each imply
`"cluster" in b.lower()`, so the mode test collapses to its first
disjunct. -/
theorem cluster_lower_of_delim (d : Char) (b : List Char)
    (hc : pyContains (d :: "cluster".toList) b = true) :
    pyContains ("cluster".toList) (b.map Char.toLower) = true := by
  have h1 : pyContains ("cluster".toList) b = true := pyContains_drop_head d _ b hc
  have h2 := pyContains_map Char.toLower _ b h1
  have hfix : ("cluster".toList).map Char.toLower = "cluster".toList := by decide
  rwa [hfix] at h2

/-- Stability of `orderedInsert`: the sublist of entries with any fixed
throughput is either preserved or gets the new element prepended (every
element jumped over has strictly smaller throughput). -/
theorem filter_orderedInsert (q : ℚ) (a : FileEntry) (l : List FileEntry) :
    (l.orderedInsert repLE a).filter (fun e => decide (e.throughput = q)) =
      if a.throughput = q then
        a :: l.filter (fun e => decide (e.throughput = q))
      else
        l.filter (fun e => decide (e.throughput = q)) := by
  induction l with
  | nil =>
    by_cases hq : a.throughput = q <;>
      simp [List.orderedInsert, List.filter, hq]
  | cons b t ih =>
    by_cases hab : repLE a b
    · by_cases hq : a.throughput = q <;>
        simp [List.orderedInsert, hab, List.filter, hq]
    · have hba : b.throughput < a.throughput := lt_of_not_le hab
      by_cases hq : a.throughput = q
      · have hbq : ¬b.throughput = q := by
          intro hbq; exact absurd (hq ▸ hbq ▸ hba) (lt_irrefl _)
        simp [List.orderedInsert, hab, List.filter, hq, hbq, ih]
      · by_cases hbq : b.throughput = q <;>
          simp [List.orderedInsert, hab, List.filter, hq, hbq, ih]

/-- Stability of the whole sort: filtering by any fixed throughput value
commutes with `sortByThroughput`, i.e. tied entries keep input order. -/
theorem filter_sortByThroughput (q : ℚ) (l : List FileEntry) :
    (sortByThroughput l).filter (fun e => decide (e.throughput = q)) =
      l.filter (fun e => decide (e.throughput = q)) := by
  induction l with
  | nil => rfl
  | cons a t ih =>
    show ((List.insertionSort repLE t).orderedInsert repLE a).filter _ = _
    rw [filter_orderedInsert]
    by_cases hq : a.throughput = q <;>
      simp [hq, List.filter, ih] <;>
      exact ih

/-! ## C1 — median-by-throughput representative selection -/

/-- C1: for every non-empty configuration group the selector sorts the
records by throughput ascending with a stable sort (ties keep input order,
expressed as filter-commutation) and picks the element at index
`⌊n / 2⌋` of the sorted sequence; a singleton group yields its only
record, and a two-element group yields the larger-throughput record
(upper median). -/
theorem c1_representative (files : List FileEntry) (h : files ≠ []) :
    ∃ r, selectRep files = some r ∧ r ∈ files ∧
      List.Sorted repLE (sortByThroughput files) ∧
      (∀ q : ℚ, (sortByThroughput files).filter (fun e => decide (e.throughput = q)) =
          files.filter (fun e => decide (e.throughput = q))) ∧
      (∀ a, files = [a] → r = a) ∧
      (∀ a b, files = [a, b] → r.throughput = max a.throughput b.throughput) := by
  have hperm : List.Perm (sortByThroughput files) files :=
    List.perm_insertionSort repLE files
  have hpos : 0 < files.length := List.length_pos.mpr h
  have hidx : files.length / 2 < (sortByThroughput files).length := by
    rw [hperm.length_eq]
    exact Nat.div_lt_self hpos (by norm_num)
  refine ⟨(sortByThroughput files).get ⟨files.length / 2, hidx⟩, ?_, ?_, ?_, ?_, ?_, ?_⟩
  · simp [selectRep, List.getElem?_eq_getElem hidx]
  · exact hperm.mem_iff.mp (List.get_mem _ _ _)
  · exact List.sorted_insertionSort repLE files
  · intro q
    exact filter_sortByThroughput q files
  · intro a ha
    subst ha
    simp [sortByThroughput, List.insertionSort]
  · intro a b hab
    subst hab
    by_cases hle : repLE a b
    · have hs : sortByThroughput [a, b] = [a, b] := by
        simp [sortByThroughput, List.insertionSort, List.orderedInsert, hle]
      have h1 : selectRep [a, b] =
          some ((sortByThroughput [a, b]).get ⟨[a, b].length / 2, hidx⟩) := by
        simp [selectRep, List.getElem?_eq_getElem hidx]
      have h2 : selectRep [a, b] = some b := by
        simp only [selectRep]
        rw [hs]
        simp
      rw [Option.some.inj (h1.symm.trans h2)]
      exact (max_eq_right hle).symm
    · have hs : sortByThroughput [a, b] = [b, a] := by
        simp [sortByThroughput, List.insertionSort, List.orderedInsert, hle]
      have h1 : selectRep [a, b] =
          some ((sortByThroughput [a, b]).get ⟨[a, b].length / 2, hidx⟩) := by
        simp [selectRep, List.getElem?_eq_getElem hidx]
      have h2 : selectRep [a, b] = some a := by
        simp only [selectRep]
        rw [hs]
        simp
      rw [Option.some.inj (h1.symm.trans h2)]
      exact (max_eq_left (le_of_lt (lt_of_not_le hle))).symm

/-- Witness for C1 at a concrete two-run group with throughputs 5 and 3:
the selector returns the larger-throughput run. -/
theorem c1_representative_witness :
    ∃ r, selectRep [FileEntry.mk ("a") 5 (Json.num 0), FileEntry.mk ("b") 3 (Json.num 0)] =
        some r ∧ r.throughput = 5 := by
  obtain ⟨r, hsel, _, _, _, _, h2⟩ :=
    c1_representative
      [FileEntry.mk ("a") 5 (Json.num 0), FileEntry.mk ("b") 3 (Json.num 0)]
      (by simp)
  refine ⟨r, hsel, ?_⟩
  rw [h2 _ _ rfl]
  norm_num

/-! ## C2 — failed-configuration detection and exclusion -/

/-- C2: a group is flagged failed iff every run's raw `rateLimitHits`
value equals `0` (a missing field was extracted as `0`, fourth conjunct);
the flag is unchanged under arbitrary rewriting of the throughput values
(second conjunct); and a flagged group is excluded from the emitted
median-extraction output (third conjunct). -/
theorem c2_failed_flag (g : List FileEntry) :
    (isFailedConfiguration g = true ↔ ∀ e ∈ g, rlhIsZero e.rateLimitHits = true) ∧
    (∀ tw : FileEntry → ℚ,
      isFailedConfiguration
          (g.map (fun e => FileEntry.mk e.filepath (tw e) e.rateLimitHits)) =
        isFailedConfiguration g) ∧
    (isFailedConfiguration g = true → emitsMedian g = false) ∧
    (∀ kvs : List (String × Json), dictGet kvs "rateLimitHits" = none →
      rlhIsZero (extractRateLimitHits (Json.obj kvs)) = true) := by
  refine ⟨by simp [isFailedConfiguration], ?_, ?_, ?_⟩
  · intro tw
    simp only [isFailedConfiguration, List.all_map]
    rfl
  · intro hf
    simp [emitsMedian, hf]
  · intro kvs hk
    simp [extractRateLimitHits, hk, rlhIsZero]

/-- Witness for C2 at a singleton group whose run has `rateLimitHits = 0`:
flagged failed and excluded from the emitted set. -/
theorem c2_failed_flag_witness :
    isFailedConfiguration [FileEntry.mk ("f") 5 (Json.num 0)] = true ∧
    emitsMedian [FileEntry.mk ("f") 5 (Json.num 0)] = false := by
  obtain ⟨hiff, _, hexcl, _⟩ := c2_failed_flag [FileEntry.mk ("f") 5 (Json.num 0)]
  have hall : isFailedConfiguration [FileEntry.mk ("f") 5 (Json.num 0)] = true := by
    refine hiff.mpr ?_
    intro e he
    rcases List.mem_singleton.mp he with rfl
    simp [rlhIsZero]
  exact ⟨hall, hexcl hall⟩

/-! ## C9 â handling of groups with fewer than 2 runs -/

/-- Case analysis on an admitted entry: its key was resolved complete, its
throughput was extracted without error, and that throughput is strictly
positive. -/
theorem includeEntry_cases (f : RawFile) (kv : ConfigKey × FileEntry)
    (h : includeEntry f = some kv) :
    keyOfParsed (parseFilename f.filename) = some kv.1 ∧
    get_throughput_from_json f.json = Except.ok kv.2.throughput ∧
    0 < kv.2.throughput := by
  unfold includeEntry at h
  split at h
  · simp at h
  · rename_i k' hk'
    split at h
    · simp at h
    · rename_i t ht
      split at h
      · rename_i hpos
        rcases Option.some.inj h with rfl
        exact ⟨hk', ht, hpos⟩
      · simp at h

/-- The per-file function used by `groupRuns` yields `none` exactly when
the file is not admitted under the key `k`. -/
theorem groupRuns_entry_none_iff (f : RawFile) (k : ConfigKey) :
    (match includeEntry f with
      | some kv => if kv.1 = k then some kv.2 else none
      | none => none) = (none : Option FileEntry) ↔
      ∀ e, includeEntry f ≠ some (k, e) := by
  cases h : includeEntry f with
  | none => simp
  | some kv =>
    rcases kv with ⟨k', e'⟩
    by_cases hk : k' = k
    · subst hk
      constructor
      · intro habs
        exact absurd habs (by simp)
      · intro hall
        exact (hall e' rfl).elim
    · constructor
      · intro _ e heq
        rw [Option.some_inj] at heq
        exact hk (congrArg Prod.fst heq)
      · intro _
        simp only [if_neg hk]

/-- C9 as corrected: `process_single_directory` accepts every non-empty
group and a singleton group's representative is its only run, while
`extract_median_results` skips groups with fewer than 2 files instead of
emitting them; and grouping never creates an empty group — a key has a
group exactly when some input file is admitted under it. -/
theorem c9_small_groups :
    (∀ g : List FileEntry, g ≠ [] → singleDirEmits g = true) ∧
    (∀ a : FileEntry, selectRep [a] = some a) ∧
    (∀ g : List FileEntry, g.length = 1 → emitsMedian g = false) ∧
    (∀ (files : List RawFile) (k : ConfigKey),
      groupRuns files k ≠ [] ↔ ∃ f ∈ files, ∃ e, includeEntry f = some (k, e)) := by
  refine ⟨?_, ?_, ?_, ?_⟩
  · intro g hg
    simpa [singleDirEmits] using hg
  · intro a
    simp [selectRep, sortByThroughput, List.insertionSort]
  · intro g hg
    simp [emitsMedian, hg]
  · intro files k
    rw [Ne, groupRuns, List.filterMap_eq_nil_iff]
    push_neg
    constructor
    · rintro ⟨f, hf, hne⟩
      have hni := (not_iff_not.mpr (groupRuns_entry_none_iff f k)).mp hne
      push_neg at hni
      rcases hni with ⟨e, he⟩
      exact ⟨f, hf, e, he⟩
    · rintro ⟨f, hf, e, he⟩
      refine ⟨f, hf, ?_⟩
      intro hnone
      exact (groupRuns_entry_none_iff f k).mp hnone e he

/-- Counterexample to C9 as stated: a healthy (non-failed) group with a
single run is skipped by the batch median-extraction workflow, not
emitted. -/
theorem c9_counterexample :
    emitsMedian [FileEntry.mk ("f") 5 (Json.num 3)] = false ∧
    isFailedConfiguration [FileEntry.mk ("f") 5 (Json.num 3)] = false := by
  constructor
  · norm_num [emitsMedian, isFailedConfiguration, rlhIsZero]
  · norm_num [isFailedConfiguration, rlhIsZero]

/-- Witness for C9 (amended) at a concrete singleton group. -/
theorem c9_small_groups_witness :
    singleDirEmits [FileEntry.mk ("f") 5 (Json.num 3)] = true ∧
    selectRep [FileEntry.mk ("f") 5 (Json.num 3)] =
      some (FileEntry.mk ("f") 5 (Json.num 3)) := by
  obtain ⟨h1, h2, _, _⟩ := c9_small_groups
  exact ⟨h1 _ (by simp), h2 _⟩

/-! ## C10 — only strictly positive throughputs are grouped -/

/-- C10: every run record placed into a configuration group by
`process_single_directory` has extracted throughput `> 0`, and a
configuration all of whose files extract throughput `0` gets no group (and
hence no aggregated result row) at all. -/
theorem c10_positive_throughput (files : List RawFile) (k : ConfigKey) :
    (∀ e ∈ groupRuns files k, 0 < e.throughput) ∧
    ((∀ f ∈ files, keyOfParsed (parseFilename f.filename) = some k →
        get_throughput_from_json f.json = Except.ok 0) →
      groupRuns files k = []) := by
  constructor
  · intro e he
    rcases List.mem_filterMap.mp he with ⟨f, _, hfe⟩
    rcases hkv : includeEntry f with _ | kv
    · rw [hkv] at hfe
      exact absurd hfe (by simp)
    · rw [hkv] at hfe
      have hpos := (includeEntry_cases f kv hkv).2.2
      by_cases hk : kv.1 = k
      · simp only [hk, if_pos] at hfe
        rcases Option.some.inj hfe with rfl
        exact hpos
      · simp only [hk, if_neg] at hfe
        exact absurd hfe (by simp)
  · intro hz
    rw [groupRuns, List.filterMap_eq_nil_iff]
    intro f hf
    rw [groupRuns_entry_none_iff]
    intro e he
    obtain ⟨hkey, hthr, hpos⟩ := includeEntry_cases f (k, e) he
    have h0 := hz f hf hkey
    rw [h0] at hthr
    rcases Except.ok.inj hthr with h0t
    rw [← h0t] at hpos
    exact lt_irrefl 0 hpos

/-- Witness for C10 at a concrete file whose `throughput.average` is `0`:
no group is created for its configuration. -/
theorem c10_positive_throughput_witness :
    groupRuns
        [RawFile.mk ("foo_50c_light_30s")
          (Json.obj [("throughput", Json.obj [("average", Json.num 0)])])]
        (ConfigKey.mk ("foo") Mode.standalone ("light") 50 30) = [] := by
  refine (c10_positive_throughput _ _).2 ?_
  intro f hf _
  rcases List.mem_singleton.mp hf with rfl
  rfl

/-! ## C5 — concurrency token extraction -/

/-- C5 as amended: whenever the leftmost digits-then-`c` match of the base
string has a nonzero value `n`, the parsed concurrency equals `n` (the
fallback token scan only runs when the matched value is `0`, and can then
override it). -/
theorem c5_concurrency_first_match (s : String) (g : List Char) (n : Nat)
    (h : reNumThen 'c' (baseOf s) = some (g, n)) (hn : n ≠ 0) :
    (parseFilename s).concurrency = (n : Int) := by
  show concurrencyOf (baseOf s) = (n : Int)
  unfold concurrencyOf
  simp only [h]
  rw [if_neg]
  intro hc
  exact hn (by exact_mod_cast hc)

set_option maxHeartbeats 1600000 in
/-- Counterexample to C5 as stated: in `x0c_7c` the first digits-then-`c`
occurrence is `0c` with value `0`, but the parsed concurrency is `7` — the
fallback loop overrides a zero-valued regex match with a later token's
value. -/
theorem c5_counterexample :
    reNumThen 'c' (baseOf ("x0c_7c")) = some ("0c".toList, 0) ∧
    (parseFilename ("x0c_7c")).concurrency = 7 := by
  exact ⟨by decide, by decide⟩

set_option maxHeartbeats 1600000 in
/-- Witness for C5 (amended) at `foo_50c_light_30s`. -/
theorem c5_concurrency_first_match_witness :
    (parseFilename ("foo_50c_light_30s")).concurrency = 50 :=
  c5_concurrency_first_match ("foo_50c_light_30s") ("50c".toList) 50
    (by decide) (by decide)

/-! ## C6 — cluster-mode detection -/

/-- The mode test collapses to its first disjunct: the parser reports
cluster mode exactly when the lowercased base contains the substring
`cluster` anywhere (delimited or not). -/
theorem modeOf_eq_cluster_iff (b : List Char) :
    modeOf b = Mode.cluster ↔
      pyContains ("cluster".toList) (b.map Char.toLower) = true := by
  have hcol : (":cluster".toList) = ':' :: ("cluster".toList) := by decide
  have hdash : ("-cluster".toList) = '-' :: ("cluster".toList) := by decide
  unfold modeOf
  split_ifs with hcond
  · constructor
    · intro _
      rcases Bool.or_eq_true_iff.mp hcond with hab | hC
      · rcases Bool.or_eq_true_iff.mp hab with hA | hB
        · exact hA
        · rw [hcol] at hB
          exact cluster_lower_of_delim ':' b hB
      · rw [hdash] at hC
        exact cluster_lower_of_delim '-' b hC
    · intro _
      rfl
  · constructor
    · intro habs
      exact absurd habs (by simp)
    · intro hA
      exact absurd
        (Bool.or_eq_true_iff.mpr (Or.inl (Bool.or_eq_true_iff.mpr (Or.inl hA))))
        hcond

/-- C6 as amended: the parser sets cluster mode exactly when the lowercased
base contains the substring `cluster` (even embedded inside a longer
token), and in cluster mode the client name is the implementation name
with `-cluster` then `:cluster` occurrences textually deleted (falling
back to the unstripped name when the deletion empties it, and to
`unknown_impl` when the implementation name is empty); the deletions
usually, but not always, leave no cluster suffix. -/
theorem c6_cluster_mode (s : String) :
    ((parseFilename s).mode = Mode.cluster ↔
      pyContains ("cluster".toList) ((baseOf s).map Char.toLower) = true) ∧
    ((parseFilename s).mode = Mode.cluster →
      (parseFilename s).clientName =
        (if implNameOf (baseOf s) = [] then "unknown_impl"
         else if clusterStripName (implNameOf (baseOf s)) = [] then
           String.mk (implNameOf (baseOf s))
         else String.mk (clusterStripName (implNameOf (baseOf s))))) := by
  constructor
  · exact modeOf_eq_cluster_iff (baseOf s)
  · intro hm
    have hmode : modeOf (baseOf s) = Mode.cluster := hm
    simp only [parseFilename, parseBase]
    unfold clientFinal
    by_cases hi : implNameOf (baseOf s) = []
    · rw [if_pos hi, if_pos hi]
    · rw [if_neg hi, if_neg hi]
      simp only [hmode, if_pos]

set_option maxHeartbeats 1600000 in
/-- Counterexample to C6 as stated, at two inputs: in
`xclustery_5c_light_30s` the word `cluster` occurs only embedded inside
the longer token `xclustery` (no `_`/`:`/`-`-delimited segment equals
`cluster`), yet the parser reports cluster mode; and for
`a:clu:clusterster_5c_light_30s` the derived client name is `a:cluster`
— the deletion of one `:cluster` occurrence re-created another, so the
cluster suffix is NOT absent from the client name. -/
theorem c6_counterexample :
    (parseFilename ("xclustery_5c_light_30s")).mode = Mode.cluster ∧
    (("xclustery_5c_light_30s".toList.splitOnP
        (fun c => c = '_' || c = ':' || c = '-')).contains ("cluster".toList)) = false ∧
    (parseFilename ("a:clu:clusterster_5c_light_30s")).mode = Mode.cluster ∧
    (parseFilename ("a:clu:clusterster_5c_light_30s")).clientName = "a:cluster" ∧
    ((":cluster".toList).isSuffixOf
        ("a:cluster".toList)) = true := by
  refine ⟨by decide, by decide, by decide, by decide, by decide⟩

set_option maxHeartbeats 1600000 in
/-- Witness for C6 (amended) at `valkey-glide_cluster_heavy_100c_30s_run2`:
cluster mode holds and the client-name equation applies. -/
theorem c6_cluster_mode_witness :
    (parseFilename ("valkey-glide_cluster_heavy_100c_30s_run2")).mode = Mode.cluster ∧
    (parseFilename ("valkey-glide_cluster_heavy_100c_30s_run2")).clientName =
      "valkey-glide" := by
  obtain ⟨hiff, himp⟩ := c6_cluster_mode ("valkey-glide_cluster_heavy_100c_30s_run2")
  have hm : (parseFilename ("valkey-glide_cluster_heavy_100c_30s_run2")).mode =
      Mode.cluster := hiff.mpr (by decide)
  refine ⟨hm, ?_⟩
  rw [himp hm]
  decide

/-! ## C7 — total parsing with documented defaults -/

/-- C7: `parseFilename` is a total function (never fails), and every field
the heuristics cannot resolve takes its documented default: concurrency
and duration `0` when both the regex and the token-suffix fallback find
nothing, workload type `unknown` when neither the regex nor the exact
part-membership check match, standalone mode when the lowercased base does
not contain `cluster`, and `unknown_impl` for both names when the derived
implementation name is empty. -/
theorem c7_defaults (s : String) :
    ((reNumThen 'c' (baseOf s) = none ∧
        fallbackSuffix 'c' ((baseOf s).splitOn '_') = none) →
      (parseFilename s).concurrency = 0) ∧
    ((reNumThen 's' (baseOf s) = none ∧
        fallbackSuffix 's' ((baseOf s).splitOn '_') = none) →
      (parseFilename s).durationSeconds = 0) ∧
    ((searchLightHeavy (baseOf s) = none ∧
        ("light".toList) ∉ (baseOf s).splitOn '_' ∧
        ("heavy".toList) ∉ (baseOf s).splitOn '_') →
      (parseFilename s).reqType = "unknown") ∧
    (pyContains ("cluster".toList) ((baseOf s).map Char.toLower) = false →
      (parseFilename s).mode = Mode.standalone) ∧
    (implNameOf (baseOf s) = [] →
      (parseFilename s).implementation = "unknown_impl" ∧
      (parseFilename s).clientName = "unknown_impl") := by
  refine ⟨?_, ?_, ?_, ?_, ?_⟩
  · rintro ⟨h1, h2⟩
    show concurrencyOf (baseOf s) = 0
    simp [concurrencyOf, h1, h2]
  · rintro ⟨h1, h2⟩
    show durationOf (baseOf s) = 0
    simp [durationOf, h1, h2]
  · rintro ⟨h1, h2, h3⟩
    show reqTypeOf (baseOf s) = "unknown"
    unfold reqTypeOf
    rw [h1]
    rw [if_neg (by simpa using h2), if_neg (by simpa using h3)]
  · intro hA
    show modeOf (baseOf s) = Mode.standalone
    cases hmv : modeOf (baseOf s) with
    | standalone => rfl
    | cluster =>
      have := (modeOf_eq_cluster_iff (baseOf s)).mp hmv
      rw [hA] at this
      exact absurd this (by simp)
  · intro hi
    constructor
    · simp only [parseFilename, parseBase]
      unfold implFinal
      rw [if_pos hi]
    · simp only [parseFilename, parseBase]
      unfold clientFinal
      rw [if_pos hi]

/-- Witness for C7 at the empty identifier string: every field takes its
documented default. -/
theorem c7_defaults_witness :
    (parseFilename ("")).concurrency = 0 ∧
    (parseFilename ("")).durationSeconds = 0 ∧
    (parseFilename ("")).reqType = "unknown" ∧
    (parseFilename ("")).mode = Mode.standalone ∧
    (parseFilename ("")).implementation = "unknown_impl" ∧
    (parseFilename ("")).clientName = "unknown_impl" := by
  obtain ⟨h1, h2, h3, h4, h5⟩ := c7_defaults ("")
  exact ⟨h1 ⟨by decide, by decide⟩, h2 ⟨by decide, by decide⟩,
    h3 ⟨by decide, by decide, by decide⟩, h4 (by decide),
    (h5 (by decide)).1, (h5 (by decide)).2⟩

/-! ## C8 — throughput extraction dual-key fallback -/

/-- C8 evidence of the code bug: the extractor is supposed never to raise,
but a document whose `throughput` (or `requests`) field is not an object
makes the `.get` chain raise `AttributeError`, which the handler
(`json.JSONDecodeError, IOError, ValueError, TypeError`) does not catch —
even when the primary path is present and numeric (second conjunct). -/
theorem c8_extractor_raises_attribute_error :
    get_throughput_from_json (Json.obj [("throughput", Json.num 1)]) =
      Except.error PyErr.attributeError ∧
    get_throughput_from_json
        (Json.obj [("throughput", Json.obj [("average", Json.num 5)]),
          ("requests", Json.num 7)]) =
      Except.error PyErr.attributeError := by
  exact ⟨rfl, rfl⟩

/-! ## C3, C4 — trend direction, stability and throughput change -/

theorem popVarQ_nonneg (ys : List ℚ) : 0 ≤ popVarQ ys := by
  unfold popVarQ
  apply div_nonneg
  · apply List.sum_nonneg
    intro x hx
    rcases List.mem_map.mp hx with ⟨y, _, rfl⟩
    exact sq_nonneg _
  · exact_mod_cast Nat.zero_le _

/-- Squaring out the coefficient of variation: for a positive mean `m`,
nonnegative variance `v` and positive threshold `t`,
`sqrt(v)/m*100 < t ↔ 10000·v < t²·m²` — this justifies the rational
transcription of the float comparisons `cv < 10` / `cv < 25`. -/
theorem cv_lt_iff (v m t : ℚ) (hm : 0 < m) (ht : 0 < t) :
    Real.sqrt ((v : ℝ)) / ((m : ℝ)) * 100 < ((t : ℝ)) ↔
      10000 * v < t ^ 2 * m ^ 2 := by
  have hmR : (0 : ℝ) < (m : ℝ) := by exact_mod_cast hm
  have h1 : Real.sqrt ((v : ℝ)) / ((m : ℝ)) * 100 < ((t : ℝ)) ↔
      Real.sqrt ((v : ℝ)) < (t : ℝ) * (m : ℝ) / 100 := by
    rw [div_mul_eq_mul_div, div_lt_iff₀ hmR,
      lt_div_iff₀ (show (0 : ℝ) < 100 by norm_num)]
  have htm : (0 : ℝ) < (t : ℝ) * (m : ℝ) / 100 := by
    have htR : (0 : ℝ) < (t : ℝ) := by exact_mod_cast ht
    positivity
  rw [h1, Real.sqrt_lt' htm, div_pow,
    lt_div_iff₀ (show (0 : ℝ) < 100 ^ 2 by norm_num)]
  have hsq : ((t : ℝ) * (m : ℝ)) ^ 2 = (t : ℝ) ^ 2 * (m : ℝ) ^ 2 := by ring
  rw [hsq]
  constructor
  · intro h
    have hcast : ((10000 * v : ℚ) : ℝ) < ((t ^ 2 * m ^ 2 : ℚ) : ℝ) := by
      push_cast
      nlinarith
    exact_mod_cast hcast
  · intro h
    have hcast : ((10000 * v : ℚ) : ℝ) < ((t ^ 2 * m ^ 2 : ℚ) : ℝ) := by
      exact_mod_cast h
    push_cast at hcast
    nlinarith

/-- The three-way classification produced by the nested direction `if`s. -/
theorem trichotomy_iffs (d : TrendDirection) (P Q : Prop)
    [Decidable P] [Decidable Q] (hpq : P → Q → False)
    (hd : d = if P then TrendDirection.improving
          else if Q then TrendDirection.declining else TrendDirection.stable) :
    (d = TrendDirection.improving ↔ P) ∧
    (d = TrendDirection.declining ↔ Q) ∧
    (d = TrendDirection.stable ↔ ¬P ∧ ¬Q) := by
  subst hd
  by_cases hp : P
  · rw [if_pos hp]
    refine ⟨⟨fun _ => hp, fun _ => rfl⟩,
      ⟨fun h => absurd h (by decide), fun hq => (hpq hp hq).elim⟩,
      ⟨fun h => absurd h (by decide), fun hnn => (hnn.1 hp).elim⟩⟩
  · rw [if_neg hp]
    by_cases hq : Q
    · rw [if_pos hq]
      refine ⟨⟨fun h => absurd h (by decide), fun hP => (hp hP).elim⟩,
        ⟨fun _ => hq, fun _ => rfl⟩,
        ⟨fun h => absurd h (by decide), fun hnn => (hnn.2 hq).elim⟩⟩
    · rw [if_neg hq]
      refine ⟨⟨fun h => absurd h (by decide), fun hP => (hp hP).elim⟩,
        ⟨fun h => absurd h (by decide), fun hQ => (hq hQ).elim⟩,
        ⟨fun _ => ⟨hp, hq⟩, fun _ => rfl⟩⟩

/-- C3: with at least 3 points the direction is the sign of the OLS slope
of throughput against point index, and (for a positive mean, so that the
coefficient of variation `cv = stddev/mean*100` is well defined) the
stability bucket is `stable`/`variableCV`/`unstable` according to
`cv < 10` / `10 ≤ cv < 25` / `25 ≤ cv`; with exactly 2 points the
direction follows the ±5 % `throughputChange` rule and the stability is
`insufficientData`. -/
theorem c3_trend (ys : List ℚ) :
    (3 ≤ ys.length →
      ((trendDirection ys = TrendDirection.improving ↔ 0 < slopeQ ys) ∧
       (trendDirection ys = TrendDirection.declining ↔ slopeQ ys < 0) ∧
       (trendDirection ys = TrendDirection.stable ↔ slopeQ ys = 0) ∧
       (0 < meanQ ys →
         ((trendStability ys = TrendStability.stable ↔
             Real.sqrt ((popVarQ ys : ℝ)) / ((meanQ ys : ℝ)) * 100 < 10) ∧
          (trendStability ys = TrendStability.variableCV ↔
             10 ≤ Real.sqrt ((popVarQ ys : ℝ)) / ((meanQ ys : ℝ)) * 100 ∧
             Real.sqrt ((popVarQ ys : ℝ)) / ((meanQ ys : ℝ)) * 100 < 25) ∧
          (trendStability ys = TrendStability.unstable ↔
             25 ≤ Real.sqrt ((popVarQ ys : ℝ)) / ((meanQ ys : ℝ)) * 100))))) ∧
    (ys.length = 2 →
      ((trendDirection ys = TrendDirection.improving ↔ 5 < throughputChange ys) ∧
       (trendDirection ys = TrendDirection.declining ↔ throughputChange ys < -5) ∧
       (trendDirection ys = TrendDirection.stable ↔
         -5 ≤ throughputChange ys ∧ throughputChange ys ≤ 5) ∧
       trendStability ys = TrendStability.insufficientData)) := by
  constructor
  · intro h3
    have e1 : trendDirection ys =
        (if 0 < slopeQ ys then TrendDirection.improving
         else if slopeQ ys < 0 then TrendDirection.declining
         else TrendDirection.stable) := by
      unfold trendDirection
      rw [if_pos h3]
    obtain ⟨d1, d2, d3⟩ :=
      trichotomy_iffs (trendDirection ys) (0 < slopeQ ys) (slopeQ ys < 0)
        (fun hp hq => absurd (lt_trans hp hq) (lt_irrefl 0)) e1
    refine ⟨d1, d2, ?_, ?_⟩
    · rw [d3]
      constructor
      · rintro ⟨hnp, hnq⟩
        exact le_antisymm (not_lt.mp hnp) (not_lt.mp hnq)
      · intro hz
        rw [hz]
        exact ⟨lt_irrefl 0, lt_irrefl 0⟩
    · intro hm
      have e2 : trendStability ys =
          (if 10000 * popVarQ ys < 100 * (meanQ ys) ^ 2 then TrendStability.stable
           else if 10000 * popVarQ ys < 625 * (meanQ ys) ^ 2 then TrendStability.variableCV
           else TrendStability.unstable) := by
        unfold trendStability
        rw [if_pos h3, if_pos hm]
      have hA : Real.sqrt ((popVarQ ys : ℝ)) / ((meanQ ys : ℝ)) * 100 < 10 ↔
          10000 * popVarQ ys < 100 * (meanQ ys) ^ 2 := by
        have h := cv_lt_iff (popVarQ ys) (meanQ ys) 10 hm (by norm_num)
        constructor
        · intro hcv
          have := h.mp (by convert hcv using 2)
          nlinarith [this]
        · intro hq
          have := h.mpr (by nlinarith [hq])
          convert this using 2
      have hB : Real.sqrt ((popVarQ ys : ℝ)) / ((meanQ ys : ℝ)) * 100 < 25 ↔
          10000 * popVarQ ys < 625 * (meanQ ys) ^ 2 := by
        have h := cv_lt_iff (popVarQ ys) (meanQ ys) 25 hm (by norm_num)
        constructor
        · intro hcv
          have := h.mp (by convert hcv using 2)
          nlinarith [this]
        · intro hq
          have := h.mpr (by nlinarith [hq])
          convert this using 2
      rw [e2]
      split_ifs with ha hb
      · refine ⟨⟨fun _ => hA.mpr ha, fun _ => rfl⟩,
          ⟨fun h => absurd h (by decide), fun hc => ?_⟩,
          ⟨fun h => absurd h (by decide), fun hc => ?_⟩⟩
        · exact absurd (hA.mpr ha) (not_lt.mpr hc.1)
        · exact absurd (lt_trans (hA.mpr ha) (by norm_num)) (not_lt.mpr hc)
      · refine ⟨⟨fun h => absurd h (by decide), fun hc => absurd (hA.mp hc) ha⟩,
          ⟨fun _ => ⟨not_lt.mp (fun hc => ha (hA.mp hc)), hB.mpr hb⟩, fun _ => rfl⟩,
          ⟨fun h => absurd h (by decide), fun hc => absurd (hB.mpr hb) (not_lt.mpr hc)⟩⟩
      · refine ⟨⟨fun h => absurd h (by decide), fun hc => absurd (hA.mp hc) ha⟩,
          ⟨fun h => absurd h (by decide), fun hc => absurd (hB.mp hc.2) hb⟩,
          ⟨fun _ => not_lt.mp (fun hc => hb (hB.mp hc)), fun _ => rfl⟩⟩
  · intro h2
    have hn3 : ¬ 3 ≤ ys.length := by omega
    have e1 : trendDirection ys =
        (if 5 < throughputChange ys then TrendDirection.improving
         else if throughputChange ys < -5 then TrendDirection.declining
         else TrendDirection.stable) := by
      unfold trendDirection
      rw [if_neg hn3]
    obtain ⟨d1, d2, d3⟩ :=
      trichotomy_iffs (trendDirection ys) (5 < throughputChange ys)
        (throughputChange ys < -5) (fun hp hq => by linarith) e1
    refine ⟨d1, d2, ?_, ?_⟩
    · rw [d3]
      constructor
      · rintro ⟨hnp, hnq⟩
        exact ⟨not_lt.mp hnq, not_lt.mp hnp⟩
      · rintro ⟨hlo, hhi⟩
        exact ⟨not_lt.mpr hhi, not_lt.mpr hlo⟩
    · unfold trendStability
      rw [if_neg hn3]

/-- Witness for C3: at `[100, 110, 120]` the direction is improving and
the theorem yields the concrete cv bound `cv < 10` from the embedded
bucket decision; at `[100, 150]` the 2-point rule gives improving with
insufficient data. -/
theorem c3_trend_witness :
    trendDirection [(100 : ℚ), 110, 120] = TrendDirection.improving ∧
    Real.sqrt ((popVarQ [(100 : ℚ), 110, 120] : ℝ)) /
        ((meanQ [(100 : ℚ), 110, 120] : ℝ)) * 100 < 10 ∧
    trendDirection [(100 : ℚ), 150] = TrendDirection.improving ∧
    trendStability [(100 : ℚ), 150] = TrendStability.insufficientData := by
  obtain ⟨h3, _⟩ := c3_trend [100, 110, 120]
  obtain ⟨hd, _, _, hst⟩ := h3 (by norm_num)
  obtain ⟨_, h2⟩ := c3_trend [100, 150]
  obtain ⟨hd2, _, _, hins⟩ := h2 (by norm_num)
  refine ⟨hd.mpr ?_, ((hst ?_).1).mp ?_, hd2.mpr ?_, hins⟩
  · norm_num [slopeQ, List.range, List.range.loop]
  · norm_num [meanQ]
  · norm_num [trendStability, popVarQ, meanQ]
  · norm_num [throughputChange]

/-- C4: for a time-ordered throughput sequence with at least 2 points and
a nonnegative first value (the data model guarantees `throughput ≥ 0`),
the change percent is `(last - first)/first*100`, and it is defined as `0`
when the first value is `0` — the guarded branch never divides by zero. -/
theorem c4_change (ys : List ℚ) (_hlen : 2 ≤ ys.length)
    (hfirst : 0 ≤ ys.headD 0) :
    (ys.headD 0 = 0 → throughputChange ys = 0) ∧
    (ys.headD 0 ≠ 0 →
      throughputChange ys = (ys.getLastD 0 - ys.headD 0) / ys.headD 0 * 100) := by
  constructor
  · intro h0
    unfold throughputChange
    rw [h0]
    norm_num
  · intro hne
    have hpos : 0 < ys.headD 0 := lt_of_le_of_ne hfirst (Ne.symm hne)
    unfold throughputChange
    rw [if_pos hpos]

/-- Witness for C4 at `[0, 150]`: first value `0`, change defined as `0`
(and the length hypothesis holds). -/
theorem c4_change_witness :
    2 ≤ ([(0 : ℚ), 150] : List ℚ).length ∧ throughputChange [(0 : ℚ), 150] = 0 := by
  refine ⟨by norm_num, ?_⟩
  exact (c4_change [0, 150] (by norm_num) (by norm_num)).1 rfl

end GenerateReport
